import Mathlib

/-!
Verification of the serial-monitor firmware core
(`src/ESP8266_Serial_Monitor.ino`): the line assembler, the circular
serial log, the EEPROM settings checksum and the button-driven
interaction state machine, shallowly embedded over `Nat`.
-/

namespace SerialMonitor

/-! ## Constants (from the `#define` block) -/

def ROW_LENGTH : Nat := 128 / 4
def SERIAL_BUFFER_ROWS : Nat := 5 * 8
def FAST_CLICKING_MS : Nat := 300
def SERIAL_MESSAGE_TIMEOUT : Nat := 500
def DEFAULT_BAUD_RATE : Nat := 115200
def SHOW_ERROR_MS : Nat := 5000

/-- `baudRateList` — the supported baud rate speeds. -/
def baudRateList : List Nat := [1200, 2400, 4800, 9600, 19200, 38400, 57600, 115200]

/-- `asciiList` — the on-screen keyboard palette: letters, digits,
punctuation and the four control entries SPACE (32), DELETE (8),
CANCEL (24), SEND (4), as byte values. -/
def asciiList : List Nat :=
  [65, 66, 67, 68, 69, 70, 71, 72, 73, 74, 75, 76, 77, 78, 79, 80, 81, 82, 83, 84,
   85, 86, 87, 88, 89, 90,
   97, 98, 99, 100, 101, 102, 103, 104, 105, 106, 107, 108, 109, 110, 111, 112,
   113, 114, 115, 116, 117, 118, 119, 120, 121, 122,
   48, 49, 50, 51, 52, 53, 54, 55, 56, 57,
   46, 44, 33, 63, 34, 64, 35, 36, 37, 38, 39,
   40, 41, 91, 93, 123, 125, 43, 45, 42, 47, 61, 60, 62,
   58, 59, 94, 126, 95, 92, 124,
   32, 8, 24, 4]

/-- A line is a sequence of byte values (the C code stores it as a
zero-terminated `char` array of at most `ROW_LENGTH` characters). -/
abbrev Line := List Nat

/-- Elapsed milliseconds as computed by the sketch's `uint32_t`
subtraction `now - before`. -/
def elapsed (now before : Nat) : Nat := (now + 2 ^ 32 - before % 2 ^ 32) % 2 ^ 32

/-! ## Line Assembler

Embeds the serial-byte processing in `loop` (the `while (Serial.read())`
body) and the idle-timeout flush just above it. -/

/-- One step of the income-buffer byte loop in `loop`: a printable byte
(`c >= 32`) is appended; then, if the buffer has reached `ROW_LENGTH` or
a control byte arrived with a non-empty buffer, the buffer is flushed as
a completed line (`addToSerialBuffer` clears it). -/
def feedByte (income : Line) (c : Nat) : Line × Option Line :=
  let income' := if 32 ≤ c then income ++ [c] else income
  if income'.length = ROW_LENGTH ∨ (c < 32 ∧ income' ≠ []) then
    ([], some income')
  else
    (income', none)

/-- Feeding a whole byte list, accumulating the completed lines. -/
def feedBytes (income : Line) (bs : List Nat) : Line × List Line :=
  bs.foldl (fun p c =>
    let r := feedByte p.1 c
    (r.1, p.2 ++ r.2.toList)) (income, [])

/-- The idle-timeout flush at the top of `loop`: if the income buffer is
non-empty and more than `SERIAL_MESSAGE_TIMEOUT` ms passed since the
last received byte, the buffer is flushed as a completed line. -/
def flushIfIdle (now lastMessageMS : Nat) (income : Line) : Line × Option Line :=
  if income ≠ [] ∧ SERIAL_MESSAGE_TIMEOUT < elapsed now lastMessageMS then
    ([], some income)
  else
    (income, none)

/-! ### Line Assembler lemmas -/

theorem feedByte_printable_no_flush {income : Line} {c : Nat} (hc : 32 ≤ c)
    (hlen : income.length + 1 < ROW_LENGTH) :
    feedByte income c = (income ++ [c], none) := by
  simp only [feedByte, if_pos hc]
  rw [if_neg]
  simp only [List.length_append, List.length_cons, List.length_nil, not_or, not_and]
  constructor
  · omega
  · intro h32; omega

theorem feedByte_printable_fill {income : Line} {c : Nat} (hc : 32 ≤ c)
    (hlen : income.length + 1 = ROW_LENGTH) :
    feedByte income c = ([], some (income ++ [c])) := by
  simp only [feedByte, if_pos hc]
  rw [if_pos]
  left
  simpa using hlen

theorem feedByte_control_flush {income : Line} {c : Nat} (hc : c < 32)
    (hne : income ≠ []) :
    feedByte income c = ([], some income) := by
  have hnc : ¬ 32 ≤ c := by omega
  simp only [feedByte, if_neg hnc]
  rw [if_pos]
  exact Or.inr ⟨hc, hne⟩

/-- Feeding printable bytes while staying strictly under capacity just
accumulates them, completing nothing. -/
theorem feedBytes_accumulate :
    ∀ (bs : List Nat) (income : Line) (acc : List Line),
      (∀ c ∈ bs, 32 ≤ c) → income.length + bs.length < ROW_LENGTH →
      bs.foldl (fun p c =>
        let r := feedByte p.1 c
        (r.1, p.2 ++ r.2.toList)) (income, acc) = (income ++ bs, acc) := by
  intro bs
  induction bs with
  | nil => intro income acc _ _; simp
  | cons c cs ih =>
      intro income acc hall hlen
      have hc : 32 ≤ c := hall c (List.mem_cons_self c cs)
      have hstep : feedByte income c = (income ++ [c], none) := by
        apply feedByte_printable_no_flush hc
        simp only [List.length_cons] at hlen
        omega
      simp only [List.foldl_cons, hstep, Option.toList_none, List.append_nil]
      have := ih (income ++ [c]) acc (fun x hx => hall x (List.mem_cons_of_mem c hx))
        (by simp only [List.length_append, List.length_cons, List.length_nil,
              List.length_cons] at hlen ⊢; omega)
      rw [this]
      simp

/-- Feeding printable bytes that exactly fill the remaining capacity
completes exactly one line and empties the buffer. -/
theorem feedBytes_fill (bs : List Nat) (income : Line)
    (hall : ∀ c ∈ bs, 32 ≤ c) (hlen : income.length + bs.length = ROW_LENGTH)
    (hne : bs ≠ []) :
    feedBytes income bs = ([], [income ++ bs]) := by
  obtain ⟨c, cs, rfl⟩ : ∃ c cs, bs = cs ++ [c] :=
    ⟨bs.getLast hne, bs.dropLast, (List.dropLast_append_getLast hne).symm⟩
  unfold feedBytes
  rw [List.foldl_append]
  rw [feedBytes_accumulate cs income [] (fun x hx => hall x (by simp [hx]))
    (by simp only [List.length_append, List.length_cons, List.length_nil] at hlen; omega)]
  have hc : 32 ≤ c := hall c (by simp)
  have : feedByte (income ++ cs) c = ([], some (income ++ cs ++ [c])) := by
    apply feedByte_printable_fill hc
    simp only [List.length_append] at hlen ⊢
    simp only [List.length_append, List.length_cons, List.length_nil] at hlen
    omega
  simp [this, List.append_assoc]

/-! ## EEPROM settings checksum (`calculateCRC32`, `saveEEPROM`) -/

/-- The CRC-32 polynomial used by `calculateCRC32`. -/
def CRC32_POLY : Nat := 0x04c11db7

/-- One iteration of the inner bit loop of `calculateCRC32`:
`bit = crc & 0x80000000`, flipped when the current data bit is set;
`crc <<= 1` (as `uint32_t`); conditionally `crc ^= 0x04c11db7`. -/
def crcBitStep (crc : Nat) (b : Bool) : Nat :=
  let bit := xor (crc.testBit 31) b
  let crc' := crc * 2 % 2 ^ 32
  if bit then crc' ^^^ CRC32_POLY else crc'

/-- The data bits of one byte in the order the loop visits them
(`i = 0x80` down to `i = 1`). -/
def byteBits (c : Nat) : List Bool :=
  [c.testBit 7, c.testBit 6, c.testBit 5, c.testBit 4,
   c.testBit 3, c.testBit 2, c.testBit 1, c.testBit 0]

/-- Processing one data byte of `calculateCRC32`. -/
def crcByteStep (crc c : Nat) : Nat := (byteBits c).foldl crcBitStep crc

/-- `calculateCRC32` — the checksum over a byte sequence, with initial
value `0xffffffff`. -/
def calculateCRC32 (data : List Nat) : Nat := data.foldl crcByteStep 0xffffffff

/-- The bytes of the `TSetting` record (`uint32_t baudRate`) as laid out
in memory on the little-endian ESP8266. -/
def settingBytes (b : Nat) : List Nat :=
  [b % 256, b / 2 ^ 8 % 256, b / 2 ^ 16 % 256, b / 2 ^ 24 % 256]

/-- `TEeprom` — the persisted record: the checksum followed by the
settings (here just the baud rate). -/
structure TEeprom where
  crc32 : Nat
  baudRate : Nat
deriving DecidableEq, Repr

/-- `saveEEPROM` — store the settings with
`crc32 = calculateCRC32(record bytes after the crc field)`. -/
def saveEEPROM (baudRate : Nat) : TEeprom :=
  { crc32 := calculateCRC32 (settingBytes baudRate), baudRate := baudRate }

/-- The settings load in `setup()`: recompute the checksum over the
data part; on mismatch the settings are reset to `DEFAULT_BAUD_RATE`
(`resetEEPROM`). -/
def loadSettings (e : TEeprom) : Nat :=
  if calculateCRC32 (settingBytes e.baudRate) = e.crc32 then e.baudRate
  else DEFAULT_BAUD_RATE

/-- Flipping single bit `p` of the stored 8-byte record: bits 0–31 lie
in the `crc32` field, bits 32–63 in the `baudRate` field. -/
def flipRecordBit (e : TEeprom) (p : Nat) : TEeprom :=
  if p < 32 then { e with crc32 := e.crc32 ^^^ 2 ^ p }
  else { e with baudRate := e.baudRate ^^^ 2 ^ (p - 32) }

/-! ### CRC-32 linearity over GF(2) -/

theorem nat_xor_left_comm (u v w : Nat) : u ^^^ (v ^^^ w) = v ^^^ (u ^^^ w) := by
  rw [← Nat.xor_assoc, Nat.xor_comm u v, Nat.xor_assoc]

theorem nat_xor_xor_self (u v : Nat) : u ^^^ (u ^^^ v) = v := by
  rw [← Nat.xor_assoc, Nat.xor_self, Nat.zero_xor]

theorem mul_two_mod_xor (a b : Nat) :
    (a ^^^ b) * 2 % 2 ^ 32 = (a * 2 % 2 ^ 32) ^^^ (b * 2 % 2 ^ 32) := by
  apply Nat.eq_of_testBit_eq
  intro i
  have h2 : ∀ z : Nat, z * 2 = z <<< 1 := by
    intro z; rw [Nat.shiftLeft_eq]
  simp only [h2, Nat.testBit_mod_two_pow, Nat.testBit_xor, Nat.testBit_shiftLeft,
    Bool.and_xor_distrib_left]

theorem crcBitStep_xor (a b : Nat) (x y : Bool) :
    crcBitStep (a ^^^ b) (xor x y) = crcBitStep a x ^^^ crcBitStep b y := by
  unfold crcBitStep
  rw [Nat.testBit_xor, mul_two_mod_xor]
  have hswap : xor (xor (a.testBit 31) (b.testBit 31)) (xor x y) =
      xor (xor (a.testBit 31) x) (xor (b.testBit 31) y) := by
    cases a.testBit 31 <;> cases b.testBit 31 <;> cases x <;> cases y <;> rfl
  rw [hswap]
  cases hp : xor (a.testBit 31) x <;> cases hq : xor (b.testBit 31) y <;>
    simp only [hp, hq, Bool.xor_false, Bool.xor_true, Bool.false_xor,
      Bool.true_xor, if_true, if_false, Bool.not_false, Bool.not_true,
      ite_true, ite_false] <;>
    simp [Nat.xor_assoc, Nat.xor_comm, nat_xor_left_comm, nat_xor_xor_self,
      Nat.xor_self, Nat.xor_zero, Nat.zero_xor]

theorem crcFold_xor :
    ∀ (l1 l2 : List Bool), l1.length = l2.length → ∀ a b : Nat,
      (List.zipWith xor l1 l2).foldl crcBitStep (a ^^^ b) =
        l1.foldl crcBitStep a ^^^ l2.foldl crcBitStep b := by
  intro l1
  induction l1 with
  | nil =>
      intro l2 hl a b
      cases l2 with
      | nil => simp
      | cons y ys => simp at hl
  | cons x xs ih =>
      intro l2 hl a b
      cases l2 with
      | nil => simp at hl
      | cons y ys =>
          simp only [List.zipWith_cons_cons, List.foldl_cons]
          rw [crcBitStep_xor]
          exact ih ys (by simpa using hl) _ _

/-- Folding the XOR of two equal-length bit streams from any start
state splits into the fold of the first and the zero-state fold of the
second. -/
theorem crcFold_flip (l e : List Bool) (h : l.length = e.length) (init : Nat) :
    (List.zipWith xor l e).foldl crcBitStep init =
      l.foldl crcBitStep init ^^^ e.foldl crcBitStep 0 := by
  have := crcFold_xor l e h init 0
  simpa using this

theorem xor_ne_self_of_ne_zero {x d : Nat} (hd : d ≠ 0) : x ^^^ d ≠ x := by
  intro h
  apply hd
  have h1 : x ^^^ (x ^^^ d) = x ^^^ x := congrArg (x ^^^ ·) h
  rw [nat_xor_xor_self, Nat.xor_self] at h1
  exact h1

/-- The bit positions of the 4 record-data bytes in CRC processing
order. -/
def bitIndices : List Nat :=
  [7, 6, 5, 4, 3, 2, 1, 0,
   15, 14, 13, 12, 11, 10, 9, 8,
   23, 22, 21, 20, 19, 18, 17, 16,
   31, 30, 29, 28, 27, 26, 25, 24]

theorem testBit_byte (v s j : Nat) (h : j < 8) :
    (v / 2 ^ s % 256).testBit j = v.testBit (s + j) := by
  rw [← Nat.shiftRight_eq_div_pow, show (256 : Nat) = 2 ^ 8 from rfl,
    Nat.testBit_mod_two_pow, Nat.testBit_shiftRight]
  simp [h]

theorem calculateCRC32_settingBytes (v : Nat) :
    calculateCRC32 (settingBytes v) =
      (bitIndices.map v.testBit).foldl crcBitStep 0xffffffff := by
  simp only [calculateCRC32, settingBytes, List.foldl_cons, List.foldl_nil,
    crcByteStep, byteBits, bitIndices, List.map_cons, List.map_nil]
  rw [show v % 256 = v / 2 ^ 0 % 256 by norm_num]
  simp only [testBit_byte _ _ _ (by norm_num : (7:Nat) < 8),
    testBit_byte _ _ _ (by norm_num : (6:Nat) < 8),
    testBit_byte _ _ _ (by norm_num : (5:Nat) < 8),
    testBit_byte _ _ _ (by norm_num : (4:Nat) < 8),
    testBit_byte _ _ _ (by norm_num : (3:Nat) < 8),
    testBit_byte _ _ _ (by norm_num : (2:Nat) < 8),
    testBit_byte _ _ _ (by norm_num : (1:Nat) < 8),
    testBit_byte _ _ _ (by norm_num : (0:Nat) < 8)]

set_option maxRecDepth 100000 in
/-- The per-position CRC difference induced by flipping one data bit is
never zero (all 32 positions, checked by evaluation). -/
theorem crcDelta_ne_zero :
    ∀ j : Fin 32, (bitIndices.map (2 ^ (j : Nat)).testBit).foldl crcBitStep 0 ≠ 0 := by
  decide

theorem crc_flip_data (b j : Nat) (hj : j < 32) :
    calculateCRC32 (settingBytes (b ^^^ 2 ^ j)) ≠
      calculateCRC32 (settingBytes b) := by
  rw [calculateCRC32_settingBytes, calculateCRC32_settingBytes]
  have hmap : bitIndices.map (b ^^^ 2 ^ j).testBit =
      List.zipWith xor (bitIndices.map b.testBit)
        (bitIndices.map (2 ^ j).testBit) := by
    induction bitIndices with
    | nil => rfl
    | cons i is ih => simp [Nat.testBit_xor, ih]
  rw [hmap, crcFold_flip _ _ (by simp)]
  exact xor_ne_self_of_ne_zero (crcDelta_ne_zero ⟨j, hj⟩)

/-! ## Data model -/

/-- `enum TprogramStates`. -/
inductive ProgramState
  | receiving   -- PROGRAM_RECEIVING
  | bdr         -- PROGRAM_BDR
  | letter      -- PROGRAM_LETTER
  | scrolling   -- PROGRAM_SCROLLING
  | error       -- PROGRAM_ERROR
deriving DecidableEq, Repr

/-- The three logical button events delivered by `u8g2.getMenuEvent()`
(U8X8_MSG_GPIO_MENU_SELECT / NEXT / PREV). -/
inductive MenuAction
  | select
  | next
  | prev
deriving DecidableEq, Repr

/-- `TSerialBuffer` — the circular serial log plus the income and send
buffers. `buffer` always has `SERIAL_BUFFER_ROWS` entries. -/
structure TSerialBuffer where
  buffer : List Line
  incomeBuffer : Line
  sendBuffer : Line
  writeIndex : Nat
  readIndex : Nat
  lastMessageMS : Nat
deriving DecidableEq, Repr

/-- The program's global mutable state (`sr`, `dsp`, `setting` and the
state-machine globals). -/
structure App where
  sr : TSerialBuffer
  menuIndex : Nat        -- dsp.menuIndex
  menuStep : Nat         -- dsp.menuStep
  programState : ProgramState
  beforeErrorState : ProgramState
  errorEnterMS : Nat
  lastActionMS : Nat
  lastMenuAction : Option MenuAction   -- 0 initially, then the last button
  baudRate : Nat         -- setting.baudRate
  errStr : Line
deriving DecidableEq, Repr

/-- External conditions read by the core: wifi connectivity, whether any
websocket client is connected, and whether `EEPROM.commit()` succeeds. -/
structure Env where
  wifiON : Bool
  hasClients : Bool
  saveOk : Bool
deriving DecidableEq, Repr

/-- Outbound side effects the core performs. -/
inductive Effect
  | serialWrite (bytes : List Nat)          -- Serial.write of a message + CRLF
  | serialReconfig (baud : Nat)             -- Serial.updateBaudRate
  | eepromSave                              -- EEPROM.put + commit
  | wsFull                                  -- broadcast of the "full"/reset log message
  | wsInc (text : Line) (written : Bool)    -- broadcast of an appended line
  | wsBaud (value : Nat)                    -- broadcast of the baud-rate message
deriving DecidableEq, Repr

/-! ## Core operations -/

/-- `switchToError` — remember the current state, enter `PROGRAM_ERROR`,
stamp the entry time and store the message. -/
def switchToError (now : Nat) (err : Line) (st : App) : App :=
  { st with beforeErrorState := st.programState
            programState := .error
            errorEnterMS := now
            errStr := err }

/-- `addToSerialBuffer` — copy `msg` into the slot at `writeIndex`,
auto-tail `readIndex` unless scrolling, advance `writeIndex` modulo
`SERIAL_BUFFER_ROWS`, and broadcast the new line to websocket clients.
(The C function also clears the caller's `msg` buffer; callers that pass
`sr.incomeBuffer` or `sr.sendBuffer` clear those fields themselves.) -/
def addToSerialBuffer (msg : Line) (msgType : Bool) (env : Env) (st : App) :
    App × List Effect :=
  let idx := st.sr.writeIndex
  let sr' := { st.sr with
    buffer := st.sr.buffer.set idx msg
    readIndex := if st.programState ≠ .scrolling then idx else st.sr.readIndex
    writeIndex := (st.sr.writeIndex + 1) % SERIAL_BUFFER_ROWS }
  ({ st with sr := sr' },
   if env.wifiON && env.hasClients then [.wsInc msg msgType] else [])

/-- `resetSerialBuffer` — empty the income buffer and every row, set
`writeIndex` to 0 and `readIndex` to `SERIAL_BUFFER_ROWS - 1`, stamp
`lastMessageMS`, and broadcast a full refresh. -/
def resetSerialBuffer (now : Nat) (env : Env) (st : App) : App × List Effect :=
  ({ st with sr := { st.sr with
      buffer := List.replicate SERIAL_BUFFER_ROWS []
      incomeBuffer := []
      writeIndex := 0
      readIndex := SERIAL_BUFFER_ROWS - 1
      lastMessageMS := now } },
   if env.wifiON && env.hasClients then [.wsFull] else [])

/-- `changeBaudRate` — when the requested rate differs from the active
one: install it, reconfigure the serial line, persist to EEPROM (a
failed commit raises the error overlay) and reset the serial log.  In
every case broadcast the baud-rate message to websocket clients. -/
def changeBaudRate (br : Nat) (now : Nat) (env : Env) (st : App) :
    App × List Effect :=
  let (st1, effs1) :=
    if br ≠ st.baudRate then
      let stA := { st with baudRate := br }
      let stB := if env.saveOk then stA
                 else switchToError now errEepromSave stA
      let (stC, e) := resetSerialBuffer now env stB
      (stC, [.serialReconfig br, .eepromSave] ++ e)
    else (st, [])
  (st1, effs1 ++ (if env.wifiON && env.hasClients then [.wsBaud br] else []))
where
  /-- "Error during EEPROM saving" as byte values. -/
  errEepromSave : Line := (("Error during EEPROM saving").toList.map Char.toNat)

/-- `writeToSerial` — on a non-empty message, wait for the UART FIFO,
write the message plus CRLF, and record `"> " ++ msg` in the serial log
tagged as written.  On an empty message it does nothing. -/
def writeToSerial (msg : Line) (env : Env) (st : App) : App × List Effect :=
  if msg ≠ [] then
    let r := addToSerialBuffer ([62, 32] ++ msg) true env st
    (r.1, .serialWrite (msg ++ [13, 10]) :: r.2)
  else (st, [])

/-- The idle-timeout flush statement in `loop`: if the income buffer
timed out, it is appended to the serial log (which clears it). -/
def serialTimeoutFlush (now : Nat) (env : Env) (st : App) : App × List Effect :=
  if st.sr.incomeBuffer ≠ [] ∧
      SERIAL_MESSAGE_TIMEOUT < elapsed now st.sr.lastMessageMS then
    let r := addToSerialBuffer st.sr.incomeBuffer false env st
    ({ r.1 with sr := { r.1.sr with incomeBuffer := [] } }, r.2)
  else (st, [])

/-- One byte of the `Serial.read()` drain loop lifted to the program
state: run `feedByte` on the income buffer and append any completed line
to the serial log. -/
def processSerialStep (env : Env) (p : App × List Effect) (c : Nat) :
    App × List Effect :=
  let r := feedByte p.1.sr.incomeBuffer c
  let st1 := { p.1 with sr := { p.1.sr with incomeBuffer := r.1 } }
  match r.2 with
  | some line =>
      let q := addToSerialBuffer line false env st1
      (q.1, p.2 ++ q.2)
  | none => (st1, p.2)

/-- The `if (Serial.available())` block of `loop`: drain all pending
bytes through the line assembler, then stamp `lastMessageMS`. -/
def processSerial (now : Nat) (bytes : List Nat) (env : Env) (st : App) :
    App × List Effect :=
  if bytes = [] then (st, [])
  else
    let r := bytes.foldl (processSerialStep env) (st, [])
    ({ r.1 with sr := { r.1.sr with lastMessageMS := now } }, r.2)

/-- The fast-click bookkeeping at the top of the button handler: a
repeat of the same button within `FAST_CLICKING_MS` doubles `menuStep`
while it is below 8 and the button is not SELECT; otherwise the step
resets to 1.  A different button stores itself and resets the step. -/
def menuStepUpdate (now : Nat) (act : MenuAction) (st : App) : App :=
  if some act = st.lastMenuAction then
    if elapsed now st.lastActionMS < FAST_CLICKING_MS ∧ st.menuStep < 8 ∧
        act ≠ .select then
      { st with menuStep := st.menuStep * 2, lastActionMS := now }
    else
      { st with menuStep := 1, lastActionMS := now }
  else
    { st with lastMenuAction := some act, menuStep := 1, lastActionMS := now }

/-- `while ((i < baudRateListCount) && (baudRateList[i] != baudRate)) i++` -/
def baudIndexOf (b : Nat) : Nat := baudRateList.findIdx (· = b)

/-- The per-state button dispatch of `loop` (the big
`if (programState == ...)` chain). -/
def dispatchButton (now : Nat) (act : MenuAction) (env : Env) (st : App) :
    App × List Effect :=
  match st.programState with
  | .receiving =>
      match act with
      | .select => ({ st with programState := .letter, menuIndex := 0 }, [])
      | .next => ({ st with programState := .bdr,
                            menuIndex := baudIndexOf st.baudRate }, [])
      | .prev => ({ st with programState := .scrolling }, [])
  | .bdr =>
      match act with
      | .next =>
          ({ st with menuIndex :=
              (st.menuIndex + st.menuStep) % baudRateList.length }, [])
      | .prev =>
          ({ st with menuIndex :=
              (st.menuIndex + baudRateList.length - st.menuStep) %
                baudRateList.length }, [])
      | .select =>
          let r := changeBaudRate (baudRateList.getD st.menuIndex 0) now env st
          ({ r.1 with programState := .receiving }, r.2)
  | .letter =>
      let len := st.sr.sendBuffer.length
      match act with
      | .next =>
          ({ st with menuIndex :=
              (st.menuIndex + st.menuStep) % asciiList.length }, [])
      | .prev =>
          ({ st with menuIndex :=
              (st.menuIndex + asciiList.length - st.menuStep) %
                asciiList.length }, [])
      | .select =>
          let ch := asciiList.getD st.menuIndex 0
          if ch = 24 then       -- CANCEL
            ({ st with sr := { st.sr with sendBuffer := [] },
                       programState := .receiving }, [])
          else if ch = 4 then   -- SEND
            let msg := st.sr.sendBuffer
            let r := writeToSerial msg env st
            let st1 := if msg ≠ [] then
                { r.1 with sr := { r.1.sr with sendBuffer := [] } }
              else r.1
            ({ st1 with programState := .receiving }, r.2)
          else if ch = 8 then   -- DELETE
            (if len ≠ 0 then
                { st with sr := { st.sr with
                    sendBuffer := st.sr.sendBuffer.dropLast } }
              else st, [])
          else
            (if len < ROW_LENGTH + 1 - 2 - 1 then
                { st with sr := { st.sr with
                    sendBuffer := st.sr.sendBuffer ++ [ch] } }
              else st, [])
  | .scrolling =>
      -- the C code lifts both indices into [40, 80) in uint8 locals
      let readIndex := (st.sr.readIndex + SERIAL_BUFFER_ROWS) % 256
      let writeIndex := (st.sr.writeIndex + SERIAL_BUFFER_ROWS) % 256
      match act with
      | .select =>
          ({ st with
              sr := { st.sr with
                readIndex := (st.sr.writeIndex + SERIAL_BUFFER_ROWS - 1) %
                  SERIAL_BUFFER_ROWS },
              programState := .receiving }, [])
      | .next =>
          let newReadIndex := (readIndex + 7) % 256
          if (readIndex < writeIndex ∧ writeIndex ≤ newReadIndex) ∨
              (writeIndex < readIndex ∧
                writeIndex + SERIAL_BUFFER_ROWS < newReadIndex) then
            ({ st with sr := { st.sr with
                readIndex := (st.sr.writeIndex + SERIAL_BUFFER_ROWS - 1) %
                  SERIAL_BUFFER_ROWS } }, [])
          else
            ({ st with sr := { st.sr with
                readIndex := newReadIndex % SERIAL_BUFFER_ROWS } }, [])
      | .prev =>
          let newReadIndex := (readIndex + 256 - 7) % 256
          if writeIndex + 7 ≤ readIndex ∧ newReadIndex ≤ writeIndex + 7 then
            ({ st with sr := { st.sr with
                readIndex := (st.sr.writeIndex + 7) % SERIAL_BUFFER_ROWS } }, [])
          else if st.sr.buffer.getD (newReadIndex % SERIAL_BUFFER_ROWS) [] ≠ [] then
            ({ st with sr := { st.sr with
                readIndex := newReadIndex % SERIAL_BUFFER_ROWS } }, [])
          else (st, [])
  | .error => (st, [])

/-- The whole `if (menuAction)` section of `loop`. -/
def handleMenuEvent (now : Nat) (act : Option MenuAction) (env : Env)
    (st : App) : App × List Effect :=
  match act with
  | none => (st, [])
  | some a => dispatchButton now a env (menuStepUpdate now a st)

/-- The error-overlay dismissal at the bottom of `loop`: after more than
`SHOW_ERROR_MS` in `PROGRAM_ERROR`, return to the remembered state. -/
def errorTimeout (now : Nat) (st : App) : App :=
  if st.programState = .error ∧ SHOW_ERROR_MS < elapsed now st.errorEnterMS then
    { st with programState := st.beforeErrorState, errStr := [] }
  else st

/-- One `loop()` iteration restricted to the specified core: timeout
flush, serial drain, button handling, error dismissal (in source
order).  Network polling is outside the core. -/
def loopIter (now : Nat) (bytes : List Nat) (act : Option MenuAction)
    (env : Env) (st : App) : App × List Effect :=
  let r1 := serialTimeoutFlush now env st
  let r2 := processSerial now bytes env r1.1
  let r3 := handleMenuEvent now act env r2.1
  (errorTimeout now r3.1, r1.2 ++ r2.2 ++ r3.2)

/-- The websocket `"bdr"` request handler: the parsed integer is passed
straight to `changeBaudRate`. -/
def websocketSetBaud (br : Nat) (now : Nat) (env : Env) (st : App) :
    App × List Effect :=
  changeBaudRate br now env st

/-- The program state right after `setup()` (with default settings in
EEPROM): receiving, empty buffers, `writeIndex = 0`,
`readIndex = SERIAL_BUFFER_ROWS - 1`. -/
def initApp : App :=
  { sr := { buffer := List.replicate SERIAL_BUFFER_ROWS []
            incomeBuffer := []
            sendBuffer := []
            writeIndex := 0
            readIndex := SERIAL_BUFFER_ROWS - 1
            lastMessageMS := 0 }
    menuIndex := 0
    menuStep := 1
    programState := .receiving
    beforeErrorState := .receiving
    errorEnterMS := 0
    lastActionMS := 0
    lastMenuAction := none
    baudRate := DEFAULT_BAUD_RATE
    errStr := [] }

/-- Appending a sequence of completed lines to the serial log. -/
def appendAll (env : Env) (st : App) (msgs : List Line) : App :=
  msgs.foldl (fun s m => (addToSerialBuffer m false env s).1) st

/-- A fixed offline environment for concrete scenarios. -/
def envOffline : Env := { wifiON := false, hasClients := false, saveOk := true }

/-- A concrete state in `PROGRAM_LETTER` with the SEND palette entry
(index 96, byte 4) selected and an empty send buffer. -/
def letterApp : App :=
  { initApp with programState := .letter, menuIndex := 96 }

/-! ## Ring Log lemmas -/

theorem appendAll_cons (env : Env) (st : App) (m : Line) (ms : List Line) :
    appendAll env st (m :: ms) =
      appendAll env (addToSerialBuffer m false env st).1 ms := rfl

theorem appendAll_append (env : Env) (st : App) (ms1 ms2 : List Line) :
    appendAll env st (ms1 ++ ms2) = appendAll env (appendAll env st ms1) ms2 := by
  simp [appendAll, List.foldl_append]

theorem appendAll_writeIndex (env : Env) :
    ∀ (msgs : List Line) (st : App), st.sr.writeIndex < SERIAL_BUFFER_ROWS →
      (appendAll env st msgs).sr.writeIndex =
        (st.sr.writeIndex + msgs.length) % SERIAL_BUFFER_ROWS := by
  intro msgs
  induction msgs with
  | nil =>
      intro st h
      simp only [appendAll, List.foldl_nil, List.length_nil, Nat.add_zero]
      simp only [SERIAL_BUFFER_ROWS] at h ⊢
      omega
  | cons m ms ih =>
      intro st h
      rw [appendAll_cons]
      have hlt : (addToSerialBuffer m false env st).1.sr.writeIndex <
          SERIAL_BUFFER_ROWS := by
        simp only [addToSerialBuffer, SERIAL_BUFFER_ROWS]
        omega
      rw [ih _ hlt]
      simp only [addToSerialBuffer, List.length_cons, SERIAL_BUFFER_ROWS] at h ⊢
      omega

theorem appendAll_buffer_length (env : Env) :
    ∀ (msgs : List Line) (st : App),
      (appendAll env st msgs).sr.buffer.length = st.sr.buffer.length := by
  intro msgs
  induction msgs with
  | nil => intro st; rfl
  | cons m ms ih =>
      intro st
      rw [appendAll_cons, ih]
      simp [addToSerialBuffer]

theorem appendAll_last (env : Env) (msgs : List Line) (hne : msgs ≠ [])
    (st : App) (hw : st.sr.writeIndex < SERIAL_BUFFER_ROWS)
    (hlen : st.sr.buffer.length = SERIAL_BUFFER_ROWS) :
    (appendAll env st msgs).sr.buffer.getD
        (((appendAll env st msgs).sr.writeIndex + (SERIAL_BUFFER_ROWS - 1)) %
          SERIAL_BUFFER_ROWS) [] = msgs.getLastD [] := by
  obtain ⟨m, ms, rfl⟩ : ∃ m ms, msgs = ms ++ [m] :=
    ⟨msgs.getLast hne, msgs.dropLast, (List.dropLast_append_getLast hne).symm⟩
  rw [appendAll_append]
  set st1 := appendAll env st ms with hst1
  have hw1 : st1.sr.writeIndex < SERIAL_BUFFER_ROWS := by
    rw [hst1, appendAll_writeIndex env ms st hw]
    exact Nat.mod_lt _ (by norm_num [SERIAL_BUFFER_ROWS])
  have hlen1 : st1.sr.buffer.length = SERIAL_BUFFER_ROWS := by
    rw [hst1, appendAll_buffer_length, hlen]
  simp only [appendAll, List.foldl_cons, List.foldl_nil]
  simp only [addToSerialBuffer]
  have hidx : (st1.sr.writeIndex + 1) % SERIAL_BUFFER_ROWS +
      (SERIAL_BUFFER_ROWS - 1) ≡ st1.sr.writeIndex [MOD SERIAL_BUFFER_ROWS] := by
    simp only [SERIAL_BUFFER_ROWS] at hw1 ⊢
    unfold Nat.ModEq
    omega
  have hidx' : ((st1.sr.writeIndex + 1) % SERIAL_BUFFER_ROWS +
      (SERIAL_BUFFER_ROWS - 1)) % SERIAL_BUFFER_ROWS = st1.sr.writeIndex := by
    have := hidx
    unfold Nat.ModEq at this
    rw [this, Nat.mod_eq_of_lt hw1]
  simp only [hidx']
  rw [List.getD_eq_getElem?_getD, List.getElem?_set_self (by omega), Option.getD_some,
    List.getLastD_concat]

/-! ## Scrolling characterization -/

theorem scrollNext_eq (now : Nat) (env : Env) (st : App)
    (hs : st.programState = .scrolling)
    (hr : st.sr.readIndex < SERIAL_BUFFER_ROWS)
    (hw : st.sr.writeIndex < SERIAL_BUFFER_ROWS) :
    (dispatchButton now .next env st).1.sr.readIndex =
      if (st.sr.readIndex < st.sr.writeIndex ∧
            st.sr.writeIndex ≤ st.sr.readIndex + 7) ∨
          st.sr.writeIndex + 33 < st.sr.readIndex
      then (st.sr.writeIndex + SERIAL_BUFFER_ROWS - 1) % SERIAL_BUFFER_ROWS
      else (st.sr.readIndex + 7) % SERIAL_BUFFER_ROWS := by
  simp only [SERIAL_BUFFER_ROWS] at hr hw ⊢
  simp only [dispatchButton, hs, SERIAL_BUFFER_ROWS]
  rw [Nat.mod_eq_of_lt (by omega : st.sr.readIndex + 5 * 8 < 256),
    Nat.mod_eq_of_lt (by omega : st.sr.writeIndex + 5 * 8 < 256),
    Nat.mod_eq_of_lt (by omega : st.sr.readIndex + 5 * 8 + 7 < 256)]
  simp only [apply_ite (fun p : App × List Effect => p.1.sr.readIndex)]
  split_ifs with h1 h2 h2 <;> omega

theorem scrollPrev_eq (now : Nat) (env : Env) (st : App)
    (hs : st.programState = .scrolling)
    (hr : st.sr.readIndex < SERIAL_BUFFER_ROWS)
    (hw : st.sr.writeIndex < SERIAL_BUFFER_ROWS) :
    (dispatchButton now .prev env st).1.sr.readIndex =
      if st.sr.writeIndex + 7 ≤ st.sr.readIndex ∧
          st.sr.readIndex ≤ st.sr.writeIndex + 14
      then (st.sr.writeIndex + 7) % SERIAL_BUFFER_ROWS
      else if st.sr.buffer.getD ((st.sr.readIndex + 33) % SERIAL_BUFFER_ROWS) [] ≠ []
      then (st.sr.readIndex + 33) % SERIAL_BUFFER_ROWS
      else st.sr.readIndex := by
  simp only [SERIAL_BUFFER_ROWS] at hr hw ⊢
  simp only [dispatchButton, hs, SERIAL_BUFFER_ROWS]
  rw [Nat.mod_eq_of_lt (by omega : st.sr.readIndex + 5 * 8 < 256),
    Nat.mod_eq_of_lt (by omega : st.sr.writeIndex + 5 * 8 < 256),
    show (st.sr.readIndex + 5 * 8 + 256 - 7) % 256 = st.sr.readIndex + 33 by omega]
  simp only [apply_ite (fun p : App × List Effect => p.1.sr.readIndex)]
  split_ifs with h1 h2 h3 h4 h3 <;> omega

/-! ## Baud-rate helpers -/

theorem switchToError_baudRate (now : Nat) (err : Line) (st : App) :
    (switchToError now err st).baudRate = st.baudRate := rfl

theorem changeBaudRate_baudRate (br now : Nat) (env : Env) (st : App) :
    (changeBaudRate br now env st).1.baudRate = br := by
  by_cases h : br = st.baudRate
  · simp [changeBaudRate, h]
  · simp only [changeBaudRate, if_neg (by exact fun hc => h hc), ne_eq, h,
      not_false_iff, if_true, resetSerialBuffer]
    split_ifs <;> rfl

/-! ## State-machine control-field preservation -/

theorem addToSerialBuffer_ctrl (msg : Line) (mt : Bool) (env : Env) (st : App) :
    (addToSerialBuffer msg mt env st).1.programState = st.programState ∧
    (addToSerialBuffer msg mt env st).1.beforeErrorState = st.beforeErrorState ∧
    (addToSerialBuffer msg mt env st).1.errorEnterMS = st.errorEnterMS :=
  ⟨rfl, rfl, rfl⟩

theorem processSerialStep_ctrl (env : Env) (p : App × List Effect) (c : Nat) :
    (processSerialStep env p c).1.programState = p.1.programState ∧
    (processSerialStep env p c).1.beforeErrorState = p.1.beforeErrorState ∧
    (processSerialStep env p c).1.errorEnterMS = p.1.errorEnterMS := by
  unfold processSerialStep
  cases h : (feedByte p.1.sr.incomeBuffer c).2 <;>
    simp [h, addToSerialBuffer]

theorem processSerialFold_ctrl (env : Env) :
    ∀ (bytes : List Nat) (p : App × List Effect),
      (bytes.foldl (processSerialStep env) p).1.programState = p.1.programState ∧
      (bytes.foldl (processSerialStep env) p).1.beforeErrorState =
        p.1.beforeErrorState ∧
      (bytes.foldl (processSerialStep env) p).1.errorEnterMS = p.1.errorEnterMS := by
  intro bytes
  induction bytes with
  | nil => intro p; exact ⟨rfl, rfl, rfl⟩
  | cons c cs ih =>
      intro p
      rw [List.foldl_cons]
      obtain ⟨h1, h2, h3⟩ := ih (processSerialStep env p c)
      obtain ⟨g1, g2, g3⟩ := processSerialStep_ctrl env p c
      exact ⟨h1.trans g1, h2.trans g2, h3.trans g3⟩

theorem processSerial_ctrl (now : Nat) (bytes : List Nat) (env : Env) (st : App) :
    (processSerial now bytes env st).1.programState = st.programState ∧
    (processSerial now bytes env st).1.beforeErrorState = st.beforeErrorState ∧
    (processSerial now bytes env st).1.errorEnterMS = st.errorEnterMS := by
  unfold processSerial
  split_ifs with h
  · exact ⟨rfl, rfl, rfl⟩
  · obtain ⟨h1, h2, h3⟩ := processSerialFold_ctrl env bytes (st, [])
    exact ⟨h1, h2, h3⟩

theorem serialTimeoutFlush_ctrl (now : Nat) (env : Env) (st : App) :
    (serialTimeoutFlush now env st).1.programState = st.programState ∧
    (serialTimeoutFlush now env st).1.beforeErrorState = st.beforeErrorState ∧
    (serialTimeoutFlush now env st).1.errorEnterMS = st.errorEnterMS := by
  unfold serialTimeoutFlush
  split_ifs with h
  · exact ⟨rfl, rfl, rfl⟩
  · exact ⟨rfl, rfl, rfl⟩

theorem menuStepUpdate_ctrl (now : Nat) (a : MenuAction) (st : App) :
    (menuStepUpdate now a st).programState = st.programState ∧
    (menuStepUpdate now a st).beforeErrorState = st.beforeErrorState ∧
    (menuStepUpdate now a st).errorEnterMS = st.errorEnterMS := by
  unfold menuStepUpdate
  split_ifs <;> exact ⟨rfl, rfl, rfl⟩

theorem handleMenuEvent_error (now : Nat) (act : Option MenuAction) (env : Env)
    (st : App) (hs : st.programState = .error) :
    (handleMenuEvent now act env st).1.programState = .error ∧
    (handleMenuEvent now act env st).1.beforeErrorState = st.beforeErrorState ∧
    (handleMenuEvent now act env st).1.errorEnterMS = st.errorEnterMS := by
  cases act with
  | none => exact ⟨hs, rfl, rfl⟩
  | some a =>
      obtain ⟨m1, m2, m3⟩ := menuStepUpdate_ctrl now a st
      have hms : (menuStepUpdate now a st).programState = .error := m1.trans hs
      have hred : handleMenuEvent now (some a) env st =
          (menuStepUpdate now a st, []) := by
        simp only [handleMenuEvent, dispatchButton, hms]
      rw [hred]
      exact ⟨hms, m2, m3⟩

/-! ## Claim theorems -/

/-- **C1.** Starting from the freshly initialized Ring Log, after `N ≥ 40`
appends `writeIndex = N mod 40` and the slot `(writeIndex-1) mod 40`
holds the line appended last; concretely, after appending the 45 lines
`[0], [1], …, [44]`, slot 0 holds the 41st line `[40]`, `writeIndex` is
`45 mod 40 = 5` and the tail slot `(writeIndex-1) mod 40` is 4. -/
theorem claim1_ring_log_append (env : Env) (msgs : List Line)
    (hN : SERIAL_BUFFER_ROWS ≤ msgs.length) :
    (appendAll env initApp msgs).sr.writeIndex =
        msgs.length % SERIAL_BUFFER_ROWS ∧
    (appendAll env initApp msgs).sr.buffer.getD
        (((appendAll env initApp msgs).sr.writeIndex + (SERIAL_BUFFER_ROWS - 1)) %
          SERIAL_BUFFER_ROWS) [] = msgs.getLastD [] ∧
    (appendAll envOffline initApp ((List.range 45).map (fun i => [i]))).sr.buffer.getD
        0 [] = [40] ∧
    (appendAll envOffline initApp
        ((List.range 45).map (fun i => [i]))).sr.writeIndex = 45 % SERIAL_BUFFER_ROWS ∧
    ((appendAll envOffline initApp ((List.range 45).map (fun i => [i]))).sr.writeIndex +
        (SERIAL_BUFFER_ROWS - 1)) % SERIAL_BUFFER_ROWS = 4 := by
  have hne : msgs ≠ [] := by
    intro h
    rw [h] at hN
    simp [SERIAL_BUFFER_ROWS] at hN
  refine ⟨?_, ?_, by decide, by decide, by decide⟩
  · rw [appendAll_writeIndex env msgs initApp (by decide)]
    simp [initApp]
  · exact appendAll_last env msgs hne initApp (by decide) (by decide)

theorem claim1_witness :
    SERIAL_BUFFER_ROWS ≤ ((List.range 45).map (fun i => ([i] : Line))).length ∧
    (appendAll envOffline initApp
        ((List.range 45).map (fun i => [i]))).sr.writeIndex =
      ((List.range 45).map (fun i => ([i] : Line))).length % SERIAL_BUFFER_ROWS :=
  ⟨by decide,
   (claim1_ring_log_append envOffline ((List.range 45).map (fun i => [i]))
      (by decide)).1⟩

/-- **C2.** Line Assembler: from an empty income buffer, exactly
`ROW_LENGTH` printable bytes with no idle gap yield exactly one
completed line of that length and an empty buffer; `k < ROW_LENGTH`
printable bytes complete nothing until the idle timeout flush, which
yields exactly that line; a control byte (< 32) with a non-empty buffer
flushes immediately; and the capacity check runs after the byte is
appended (a printable byte filling the buffer is part of the flushed
line). -/
theorem claim2_line_assembler :
    (∀ bs : List Nat, (∀ c ∈ bs, 32 ≤ c) → bs.length = ROW_LENGTH →
        feedBytes [] bs = ([], [bs])) ∧
    (∀ bs : List Nat, (∀ c ∈ bs, 32 ≤ c) → bs ≠ [] → bs.length < ROW_LENGTH →
        feedBytes [] bs = (bs, []) ∧
        ∀ now last : Nat, SERIAL_MESSAGE_TIMEOUT < elapsed now last →
          flushIfIdle now last bs = ([], some bs)) ∧
    (∀ (income : Line) (c : Nat), c < 32 → income ≠ [] →
        feedByte income c = ([], some income)) ∧
    (∀ (income : Line) (c : Nat), 32 ≤ c → income.length + 1 = ROW_LENGTH →
        feedByte income c = ([], some (income ++ [c]))) := by
  refine ⟨?_, ?_, ?_, ?_⟩
  · intro bs hall hlen
    have := feedBytes_fill bs [] hall (by simpa using hlen)
      (by intro h; rw [h] at hlen; simp [ROW_LENGTH] at hlen)
    simpa using this
  · intro bs hall hne hlen
    constructor
    · have := feedBytes_accumulate bs [] [] hall (by simpa using hlen)
      unfold feedBytes
      rw [this]
      simp
    · intro now last ht
      rw [flushIfIdle, if_pos ⟨hne, ht⟩]
  · intro income c hc hne
    exact feedByte_control_flush hc hne
  · intro income c hc hlen
    exact feedByte_printable_fill hc hlen

theorem claim2_witness :
    feedBytes [] (List.replicate 32 65) = ([], [List.replicate 32 65]) ∧
    feedBytes [] [72, 73] = ([72, 73], []) ∧
    flushIfIdle 1000 0 [72, 73] = ([], some [72, 73]) ∧
    feedByte [72, 73] 10 = ([], some [72, 73]) ∧
    feedByte (List.replicate 31 65) 66 =
      ([], some (List.replicate 31 65 ++ [66])) := by
  refine ⟨?_, ?_, ?_, ?_, ?_⟩
  · exact claim2_line_assembler.1 (List.replicate 32 65) (by decide) (by decide)
  · exact (claim2_line_assembler.2.1 [72, 73] (by decide) (by decide)
      (by decide)).1
  · exact (claim2_line_assembler.2.1 [72, 73] (by decide) (by decide)
      (by decide)).2 1000 0 (by decide)
  · exact claim2_line_assembler.2.2.1 [72, 73] 10 (by decide) (by decide)
  · exact claim2_line_assembler.2.2.2 (List.replicate 31 65) 66 (by decide)
      (by decide)

/-- **C3.** `changeBaudRate` called with the active rate leaves the whole
program state untouched (serial log slots and both indices included),
performs no EEPROM write and no serial-line reconfiguration, yet still
broadcasts the baud-rate notification to the connected subscribers. -/
theorem claim3_setBaudRate_idempotent (br now : Nat) (env : Env) (st : App)
    (hbr : br = st.baudRate) (hw : env.wifiON = true)
    (hc : env.hasClients = true) :
    changeBaudRate br now env st = (st, [.wsBaud br]) := by
  simp [changeBaudRate, hbr, hw, hc]

theorem claim3_witness :
    (115200 : Nat) = initApp.baudRate ∧
    changeBaudRate 115200 0 { wifiON := true, hasClients := true, saveOk := true }
        initApp = (initApp, [.wsBaud 115200]) :=
  ⟨by decide,
   claim3_setBaudRate_idempotent 115200 0
     { wifiON := true, hasClients := true, saveOk := true } initApp rfl rfl rfl⟩

/-- **C5.** `resetSerialBuffer` empties all `SERIAL_BUFFER_ROWS` slots,
empties the income assembly buffer, and resets `writeIndex` (to 0) and
`readIndex` (to `SERIAL_BUFFER_ROWS - 1`) to exactly the start values
they hold in the freshly initialized program state. -/
theorem claim5_reset (now : Nat) (env : Env) (st : App) :
    (∀ i, i < SERIAL_BUFFER_ROWS →
        (resetSerialBuffer now env st).1.sr.buffer.getD i [] = []) ∧
    (resetSerialBuffer now env st).1.sr.incomeBuffer = [] ∧
    (resetSerialBuffer now env st).1.sr.writeIndex = 0 ∧
    (resetSerialBuffer now env st).1.sr.readIndex = SERIAL_BUFFER_ROWS - 1 ∧
    (resetSerialBuffer now env st).1.sr.writeIndex = initApp.sr.writeIndex ∧
    (resetSerialBuffer now env st).1.sr.readIndex = initApp.sr.readIndex := by
  refine ⟨?_, rfl, rfl, rfl, rfl, rfl⟩
  intro i hi
  simp only [resetSerialBuffer]
  rw [List.getD_eq_getElem?_getD, List.getElem?_replicate]
  simp [hi]

theorem claim5_witness :
    (0 : Nat) < SERIAL_BUFFER_ROWS ∧
    (resetSerialBuffer 7 envOffline initApp).1.sr.buffer.getD 0 [] = [] :=
  ⟨by decide, (claim5_reset 7 envOffline initApp).1 0 (by decide)⟩

/-- **C7.** A baud rate stored through `saveEEPROM` reads back unchanged
(the recomputed CRC-32 matches), and flipping any single bit of the
8-byte record — in the checksum field or in the value field — makes the
recomputed checksum mismatch, which resets the settings to
`DEFAULT_BAUD_RATE = 115200`. -/
theorem claim7_eeprom_roundtrip (b : Nat) (hb : b < 2 ^ 32) (p : Nat)
    (hp : p < 64) :
    loadSettings (saveEEPROM b) = b ∧
    loadSettings (flipRecordBit (saveEEPROM b) p) = DEFAULT_BAUD_RATE := by
  constructor
  · simp [loadSettings, saveEEPROM]
  · by_cases hp32 : p < 32
    · simp only [flipRecordBit, if_pos hp32, saveEEPROM, loadSettings]
      rw [if_neg]
      exact Ne.symm (xor_ne_self_of_ne_zero (Nat.two_pow_pos p).ne')
    · simp only [flipRecordBit, if_neg hp32, saveEEPROM, loadSettings]
      rw [if_neg]
      exact crc_flip_data b (p - 32) (by omega)

theorem claim7_witness :
    (9600 : Nat) < 2 ^ 32 ∧ (35 : Nat) < 64 ∧
    loadSettings (saveEEPROM 9600) = 9600 ∧
    loadSettings (flipRecordBit (saveEEPROM 9600) 35) = DEFAULT_BAUD_RATE :=
  ⟨by norm_num, by norm_num,
   (claim7_eeprom_roundtrip 9600 (by norm_num) 35 (by norm_num)).1,
   (claim7_eeprom_roundtrip 9600 (by norm_num) 35 (by norm_num)).2⟩

/-- **C10.** In `PROGRAM_LETTER`, selecting the SEND entry with an empty
send buffer switches to `PROGRAM_RECEIVING` and changes nothing else:
no serial write, no log append, indices and all slots untouched. -/
theorem claim10_send_empty (now : Nat) (env : Env) (st : App)
    (hs : st.programState = .letter) (hsend : st.sr.sendBuffer = [])
    (hmenu : asciiList.getD st.menuIndex 0 = 4) :
    dispatchButton now .select env st =
      ({ st with programState := .receiving }, []) := by
  have hmenu' : asciiList[st.menuIndex]?.getD 0 = 4 := by
    rwa [List.getD_eq_getElem?_getD] at hmenu
  simp [dispatchButton, hs, hsend, hmenu', writeToSerial]

theorem claim10_witness :
    letterApp.programState = .letter ∧
    letterApp.sr.sendBuffer = [] ∧
    asciiList.getD letterApp.menuIndex 0 = 4 ∧
    dispatchButton 0 .select envOffline letterApp =
      ({ letterApp with programState := .receiving }, []) :=
  ⟨rfl, rfl, by decide,
   claim10_send_empty 0 envOffline letterApp rfl rfl (by decide)⟩

/-- A concrete scrolling state: slots 0–19 hold a line, `writeIndex` is
20, the scroll cursor sits on slot 0. -/
def scrollApp : App :=
  { initApp with
    programState := .scrolling
    sr := { initApp.sr with
      buffer := List.replicate 20 [88] ++ List.replicate 20 ([] : Line)
      writeIndex := 20
      readIndex := 0 } }

/-- **C4 counterexample.** From scroll cursor 0 with `writeIndex` 20, a
`Next` event lands the cursor on slot 7: it moved by 7 lines, not by one
8-line page (slot 8), and it was not clamped at the tail (slot 19). -/
theorem claim4_counterexample :
    (dispatchButton 0 .next envOffline scrollApp).1.sr.readIndex = 7 ∧
    (7 : Nat) ≠ (scrollApp.sr.readIndex + 8) % SERIAL_BUFFER_ROWS ∧
    (7 : Nat) ≠
      (scrollApp.sr.writeIndex + SERIAL_BUFFER_ROWS - 1) % SERIAL_BUFFER_ROWS := by
  decide

/-- **C4 (amended).** In the Scrolling state with in-range indices,
`Next` advances the cursor by exactly 7 lines modulo the capacity
(consecutive pages overlap by one line), except that it snaps to the
tail slot when the advance would reach or pass the write index (or when
`writeIndex + 33 < readIndex`); `Prev` moves the cursor back by 7 lines
when the target slot is non-empty, snaps to
`(writeIndex + 7) mod capacity` when crossing that boundary, and
otherwise does not move. -/
theorem claim4_scroll_amended (now : Nat) (env : Env) (st : App)
    (hs : st.programState = .scrolling)
    (hr : st.sr.readIndex < SERIAL_BUFFER_ROWS)
    (hw : st.sr.writeIndex < SERIAL_BUFFER_ROWS) :
    ((dispatchButton now .next env st).1.sr.readIndex =
      if (st.sr.readIndex < st.sr.writeIndex ∧
            st.sr.writeIndex ≤ st.sr.readIndex + 7) ∨
          st.sr.writeIndex + 33 < st.sr.readIndex
      then (st.sr.writeIndex + SERIAL_BUFFER_ROWS - 1) % SERIAL_BUFFER_ROWS
      else (st.sr.readIndex + 7) % SERIAL_BUFFER_ROWS) ∧
    ((dispatchButton now .prev env st).1.sr.readIndex =
      if st.sr.writeIndex + 7 ≤ st.sr.readIndex ∧
          st.sr.readIndex ≤ st.sr.writeIndex + 14
      then (st.sr.writeIndex + 7) % SERIAL_BUFFER_ROWS
      else if st.sr.buffer.getD ((st.sr.readIndex + 33) % SERIAL_BUFFER_ROWS) [] ≠ []
      then (st.sr.readIndex + 33) % SERIAL_BUFFER_ROWS
      else st.sr.readIndex) :=
  ⟨scrollNext_eq now env st hs hr hw, scrollPrev_eq now env st hs hr hw⟩

theorem claim4_witness :
    scrollApp.programState = .scrolling ∧
    scrollApp.sr.readIndex < SERIAL_BUFFER_ROWS ∧
    scrollApp.sr.writeIndex < SERIAL_BUFFER_ROWS ∧
    (dispatchButton 3 .next envOffline scrollApp).1.sr.readIndex =
      (if (scrollApp.sr.readIndex < scrollApp.sr.writeIndex ∧
            scrollApp.sr.writeIndex ≤ scrollApp.sr.readIndex + 7) ∨
          scrollApp.sr.writeIndex + 33 < scrollApp.sr.readIndex
      then (scrollApp.sr.writeIndex + SERIAL_BUFFER_ROWS - 1) % SERIAL_BUFFER_ROWS
      else (scrollApp.sr.readIndex + 7) % SERIAL_BUFFER_ROWS) :=
  ⟨rfl, by decide, by decide,
   (claim4_scroll_amended 3 envOffline scrollApp rfl (by decide) (by decide)).1⟩

/-- Repeated clicks of one button at the given times. -/
def clickChain (a : MenuAction) (ts : List Nat) (st : App) : App :=
  ts.foldl (fun s t => menuStepUpdate t a s) st

/-- A state in which the previous button was also `Next`, pressed at
time 0, with the step at 4. -/
def fastApp : App :=
  { initApp with lastMenuAction := some .next, menuStep := 4 }

/-- A state that entered the error overlay at time 0. -/
def errApp : App := switchToError 0 [69] initApp

/-- A concrete `PROGRAM_BDR` state: device at 9600 baud (cursor index
3), previous button `Next` pressed at time 0. -/
def bdrApp : App :=
  { initApp with
    programState := .bdr
    menuIndex := 3
    baudRate := 9600
    lastMenuAction := some .next }

/-- **C6 counterexample.** Four fast `Next` clicks raise the step to the
cap 8; a fifth fast repeat of the same button resets the step to 1
instead of staying at the cap. -/
theorem claim6_counterexample :
    (clickChain .next [0, 100, 200, 300] initApp).menuStep = 8 ∧
    (clickChain .next [0, 100, 200, 300, 400] initApp).menuStep = 1 := by
  decide

/-- **C6 (amended).** A repeat of the same non-SELECT button within the
300 ms window doubles the step while the step is below 8; a fast repeat
when the step is already 8 resets it to 1 (so the step cycles
1,2,4,8,1,…); a different button or a slow click resets it to 1; the
step always stays in {1,2,4,8}; and concretely in `PROGRAM_BDR` at 9600
baud, a slow `Next` then a `Next` 100 ms later give effective steps 1
then 2, moving the cursor from index 3 to 4 to 6. -/
theorem claim6_fastclick_amended (now : Nat) (a : MenuAction) (st : App) :
    (some a = st.lastMenuAction →
      elapsed now st.lastActionMS < FAST_CLICKING_MS → st.menuStep < 8 →
      a ≠ .select → (menuStepUpdate now a st).menuStep = st.menuStep * 2) ∧
    (some a = st.lastMenuAction →
      elapsed now st.lastActionMS < FAST_CLICKING_MS → 8 ≤ st.menuStep →
      (menuStepUpdate now a st).menuStep = 1) ∧
    (some a = st.lastMenuAction →
      FAST_CLICKING_MS ≤ elapsed now st.lastActionMS →
      (menuStepUpdate now a st).menuStep = 1) ∧
    (some a ≠ st.lastMenuAction → (menuStepUpdate now a st).menuStep = 1) ∧
    (st.menuStep ∈ [1, 2, 4, 8] →
      (menuStepUpdate now a st).menuStep ∈ [1, 2, 4, 8]) ∧
    ((handleMenuEvent 1000 (some .next) envOffline bdrApp).1.menuStep = 1 ∧
     (handleMenuEvent 1000 (some .next) envOffline bdrApp).1.menuIndex = 4) ∧
    ((handleMenuEvent 1100 (some .next) envOffline
        (handleMenuEvent 1000 (some .next) envOffline bdrApp).1).1.menuStep = 2 ∧
     (handleMenuEvent 1100 (some .next) envOffline
        (handleMenuEvent 1000 (some .next) envOffline bdrApp).1).1.menuIndex = 6) := by
  refine ⟨?_, ?_, ?_, ?_, ?_, by decide, by decide⟩
  · intro h1 h2 h3 h4
    unfold menuStepUpdate
    rw [if_pos h1, if_pos ⟨h2, h3, h4⟩]
  · intro h1 h2 h3
    unfold menuStepUpdate
    rw [if_pos h1, if_neg]
    rintro ⟨-, hlt, -⟩
    omega
  · intro h1 h2
    unfold menuStepUpdate
    rw [if_pos h1, if_neg]
    rintro ⟨hfast, -, -⟩
    simp only [FAST_CLICKING_MS] at h2 hfast
    omega
  · intro h1
    unfold menuStepUpdate
    rw [if_neg (fun h => h1 h)]
  · intro hmem
    unfold menuStepUpdate
    split_ifs with h1 h2
    · obtain ⟨-, hlt, -⟩ := h2
      simp only [List.mem_cons, List.not_mem_nil, or_false] at hmem ⊢
      rcases hmem with h | h | h | h <;> rw [h] at hlt ⊢ <;> omega
    · simp
    · simp

theorem claim6_witness :
    (some MenuAction.next = fastApp.lastMenuAction) ∧
    elapsed 100 fastApp.lastActionMS < FAST_CLICKING_MS ∧
    fastApp.menuStep < 8 ∧
    (menuStepUpdate 100 .next fastApp).menuStep = fastApp.menuStep * 2 :=
  ⟨rfl, by decide, by decide,
   (claim6_fastclick_amended 100 .next fastApp).1 rfl (by decide) (by decide)
     (by decide)⟩

/-- **C8 counterexample.** The inbound subscriber command `setBaud` with
value 42 installs baud rate 42, which is not in the enumerated list. -/
theorem claim8_counterexample :
    (websocketSetBaud 42 0 envOffline initApp).1.baudRate = 42 ∧
    (42 : Nat) ∉ baudRateList := by
  decide

/-- **C8 (amended).** The baud-rate-list invariant holds for the
button-driven path: committing in `PROGRAM_BDR` with an in-range cursor
always installs a member of `baudRateList`, and the default is in the
list; but the subscriber `setBaud` command installs exactly the
requested integer, unvalidated, so an arbitrary value can leave the
enumerated list. -/
theorem claim8_baud_amended (now : Nat) (env : Env) (st : App) :
    (st.programState = .bdr → st.menuIndex < baudRateList.length →
      (dispatchButton now .select env st).1.baudRate ∈ baudRateList) ∧
    (∀ br, (websocketSetBaud br now env st).1.baudRate = br) ∧
    DEFAULT_BAUD_RATE ∈ baudRateList := by
  refine ⟨?_, ?_, by decide⟩
  · intro hs hlt
    have hval : (dispatchButton now .select env st).1.baudRate =
        baudRateList.getD st.menuIndex 0 := by
      simp only [dispatchButton, hs]
      exact changeBaudRate_baudRate _ now env st
    rw [hval, List.getD_eq_getElem?_getD, List.getElem?_eq_getElem hlt,
      Option.getD_some]
    exact List.getElem_mem hlt
  · intro br
    exact changeBaudRate_baudRate br now env st

theorem claim8_witness :
    bdrApp.programState = .bdr ∧
    bdrApp.menuIndex < baudRateList.length ∧
    (dispatchButton 0 .select envOffline bdrApp).1.baudRate ∈ baudRateList :=
  ⟨rfl, by decide,
   (claim8_baud_amended 0 envOffline bdrApp).1 rfl (by decide)⟩

/-- **C9.** `switchToError` enters the error overlay remembering the
prior state; while at most `SHOW_ERROR_MS` have elapsed since the error
was raised, a whole loop iteration — whatever buttons or serial bytes
arrive — stays in the overlay; once more than `SHOW_ERROR_MS` have
elapsed, the iteration returns exactly to the remembered prior state. -/
theorem claim9_error_overlay (now later : Nat) (err : Line) (st : App)
    (env : Env) (bytes : List Nat) (act : Option MenuAction) :
    ((switchToError now err st).programState = .error ∧
     (switchToError now err st).beforeErrorState = st.programState) ∧
    (st.programState = .error →
      elapsed later st.errorEnterMS ≤ SHOW_ERROR_MS →
      (loopIter later bytes act env st).1.programState = .error) ∧
    (st.programState = .error →
      SHOW_ERROR_MS < elapsed later st.errorEnterMS →
      (loopIter later bytes act env st).1.programState = st.beforeErrorState) := by
  have f := serialTimeoutFlush_ctrl later env st
  have p := processSerial_ctrl later bytes env (serialTimeoutFlush later env st).1
  refine ⟨⟨rfl, rfl⟩, ?_, ?_⟩
  · intro hs ht
    obtain ⟨h1, h2, h3⟩ := handleMenuEvent_error later act env _
      (p.1.trans (f.1.trans hs))
    simp only [loopIter, errorTimeout]
    rw [h1, h3.trans ((p.2.2).trans f.2.2)]
    rw [if_neg]
    · exact h1
    · rintro ⟨-, hgt⟩
      omega
  · intro hs ht
    obtain ⟨h1, h2, h3⟩ := handleMenuEvent_error later act env _
      (p.1.trans (f.1.trans hs))
    simp only [loopIter, errorTimeout]
    rw [h1, h3.trans ((p.2.2).trans f.2.2)]
    rw [if_pos ⟨rfl, ht⟩]
    exact h2.trans ((p.2.1).trans f.2.1)

theorem claim9_witness :
    errApp.programState = .error ∧
    SHOW_ERROR_MS < elapsed 6000 errApp.errorEnterMS ∧
    (loopIter 6000 [] none envOffline errApp).1.programState =
      errApp.beforeErrorState :=
  ⟨rfl, by decide,
   (claim9_error_overlay 0 6000 [] errApp envOffline [] none).2.2 rfl (by decide)⟩

end SerialMonitor
